import Mathlib

/-!
# Verification of the seis2d SEG-Y decoding core

Shallow embedding of `src/backend/io/segy_reader.py`.

The reader operates on files opened through the `segyio` library.  We model
an opened SEG-Y file handle abstractly by the data the reader extracts from
it: the trace count, the dense sample grid, the two sources of the sample
interval (`segyio.tools.dt` and the binary-header `Interval` field), and a
partial map from trace-header field codes to per-trace integer values.
`none` in that map models the `KeyError` that `segyio`'s `attributes`
accessor raises when a field is absent from the file's header layout.

Numeric values are modelled exactly: header fields are integers, derived
quantities are rationals, and the cumulative distances (which take a square
root) are reals.
-/

namespace Seis2d

/-- A trace-header field code (a byte offset, an integer in the source). -/
abbrev Field := Int

/-- Abstract model of an opened SEG-Y file handle. -/
structure SegyFile where
  /-- `f.tracecount` -/
  tracecount : Nat
  /-- declared samples-per-trace (`f.samples.size`); the sample grid rows
      all have this length in a structurally valid file -/
  n_samples : Nat
  /-- the stacked per-trace sample rows, as read by `_read_samples` -/
  samples : List (List ℚ)
  /-- result of `segyio.tools.dt(f)`; `none` models `None` -/
  dt_tools : Option ℚ
  /-- the binary header `Interval` field, `f.bin[segyio.BinField.Interval]` -/
  bin_interval : ℚ
  /-- per-trace raw integer header values for each field code; `none`
      models the `KeyError` raised for a field absent from the layout -/
  attributes : Field → Option (List ℤ)

/-- Structural well-formedness of the model: the sample grid has one row per
trace, rows are rectangular, and every present header attribute carries one
value per trace (all guaranteed by `segyio` for a successfully opened file). -/
def SegyFile.WF (f : SegyFile) : Prop :=
  f.samples.length = f.tracecount ∧
  (∀ row ∈ f.samples, row.length = f.n_samples) ∧
  (∀ fld vs, f.attributes fld = some vs → vs.length = f.tracecount)

/-- `segyio.TraceField.SourceX` -/
def DEFAULT_X_FIELD : Field := 73
/-- `segyio.TraceField.SourceY` -/
def DEFAULT_Y_FIELD : Field := 77
/-- `segyio.TraceField.CDP` -/
def DEFAULT_CDP_FIELD : Field := 21
/-- `segyio.TraceField.SourceGroupScalar` -/
def DEFAULT_SCALAR_FIELD : Field := 71

/-- `_read_samples`: stacks every trace's samples into a dense grid. -/
def _read_samples (f : SegyFile) : List (List ℚ) :=
  f.samples

/-- `_read_sample_interval_us`: prefer `segyio.tools.dt`; if it gives
`None`, fall back to the binary header's `Interval` field. -/
def _read_sample_interval_us (f : SegyFile) : ℚ :=
  match f.dt_tools with
  | some interval => interval
  | none => f.bin_interval

/-- `_read_scalars`: read the per-trace scalar field; on `KeyError`
(absent field) substitute an all-zero array of length `tracecount`. -/
def _read_scalars (f : SegyFile) (scalar_field : Field) : List ℤ :=
  match f.attributes scalar_field with
  | some scalars => scalars
  | none => List.replicate f.tracecount 0

/-- `_read_attribute`: read one value per trace for a field, cast to
float64 (exact for header integers).  The `KeyError` for an absent field
propagates, modelled by `none`. -/
def _read_attribute (f : SegyFile) (field : Field) : Option (List ℚ) :=
  (f.attributes field).map (List.map (fun v : ℤ => (v : ℚ)))

/-- The loop body of `_read_and_scale_attribute`: the signed-scalar
three-way rule applied to one raw value and its trace's scalar. -/
def scaleValue (value : ℚ) (scalar : ℤ) : ℚ :=
  if scalar = 0 then value
  else if 0 < scalar then value / (scalar : ℚ)
  else value * ((scalar.natAbs : ℤ) : ℚ)

/-- `_read_and_scale_attribute`: read a coordinate attribute and apply the
per-trace signed-scalar rule.  With no scalar array the raw values pass
through.  (The source zips values with scalars with `strict=True`; in a
well-formed file both lists have length `tracecount`.) -/
def _read_and_scale_attribute (f : SegyFile) (field : Field)
    (scalars : Option (List ℤ)) : Option (List ℚ) :=
  (_read_attribute f field).map fun values =>
    match scalars with
    | none => values
    | some s => List.zipWith scaleValue values s

/-- One segment length of `_compute_cumulative_distance`: the Euclidean
norm of the coordinate difference between consecutive traces. -/
noncomputable def segLen (p q : ℚ × ℚ) : ℝ :=
  Real.sqrt (((q.1 - p.1 : ℚ) : ℝ) ^ 2 + ((q.2 - p.2 : ℚ) : ℝ) ^ 2)

/-- `_compute_cumulative_distance`: empty input gives an empty array;
otherwise prepend `0` to the running sums of the consecutive segment
lengths (`np.concatenate(([0.0], np.cumsum(segment_lengths)))`, which is
exactly `List.scanl (+) 0`). -/
noncomputable def _compute_cumulative_distance (x y : List ℚ) : List ℝ :=
  if x.length = 0 then []
  else
    let coords := x.zip y
    let segment_lengths := List.zipWith segLen coords coords.tail
    List.scanl (fun acc s => acc + s) 0 segment_lengths

/-- The keyword configuration of `load_segy_line` (field codes and manual
adjustments; the source's defaults are the `DEFAULT_*` fields above). -/
structure LoadConfig where
  x_field : Field := DEFAULT_X_FIELD
  y_field : Field := DEFAULT_Y_FIELD
  cdp_field : Option Field := some DEFAULT_CDP_FIELD
  scalar_field : Option Field := some DEFAULT_SCALAR_FIELD
  xy_scalar_override : Option ℚ := none
  x_offset : ℚ := 0
  y_offset : ℚ := 0

/-- `SegyLineMeta`: summary information about a loaded 2D line (the fields
the claims use; resolved field-name strings are omitted). -/
structure SegyLineMeta where
  name : String
  n_traces : Nat
  n_samples : Nat
  dt_us : ℚ
  xy_scalar_override : Option ℚ
  x_offset : ℚ
  y_offset : ℚ

/-- `SegyLine`: the seismic samples and their spatial metadata. -/
structure SegyLine where
  meta : SegyLineMeta
  samples : List (List ℚ)
  times_ms : List ℚ
  distance : List ℝ
  x : List ℚ
  y : List ℚ
  cdp : List ℚ

/-- The statement `if xy_scalar_override is not None: x = x * float(...)`
of `load_segy_line`, applied to one coordinate array. -/
def applyOverride (ov : Option ℚ) (l : List ℚ) : List ℚ :=
  match ov with
  | some s => l.map (fun v => v * s)
  | none => l

/-- The statement `if x_offset: x = x + float(x_offset)` of
`load_segy_line` (Python float truthiness: the branch runs iff the offset
is nonzero), applied to one coordinate array. -/
def applyOffset (off : ℚ) (l : List ℚ) : List ℚ :=
  if off = 0 then l else l.map (fun v => v + off)

/-- `load_segy_line` body, after the path-existence check, operating on the
opened file.  A `none` result models the uncaught `KeyError` escaping when a
configured X, Y, or CDP header field is absent from the file's layout; the
match order mirrors the statement order of the source (X, then Y, then CDP). -/
noncomputable def load_segy_line (f : SegyFile) (cfg : LoadConfig)
    (name : String) : Option SegyLine :=
  let samples := _read_samples f
  let n_traces := samples.length
  let n_samples := samples.headI.length
  let dt_us := _read_sample_interval_us f
  let times_ms := (List.range n_samples).map (fun i : ℕ => (i : ℚ) * (dt_us / 1000))
  let scalars : Option (List ℤ) := cfg.scalar_field.map (_read_scalars f)
  match _read_and_scale_attribute f cfg.x_field scalars,
        _read_and_scale_attribute f cfg.y_field scalars with
  | some x0, some y0 =>
    let x := applyOffset cfg.x_offset (applyOverride cfg.xy_scalar_override x0)
    let y := applyOffset cfg.y_offset (applyOverride cfg.xy_scalar_override y0)
    match (match cfg.cdp_field with
           | some cf => _read_attribute f cf
           | none => some ((List.range n_traces).map (fun i : ℕ => (i : ℚ)))) with
    | some cdp =>
      some
        { meta :=
            { name := name
              n_traces := n_traces
              n_samples := n_samples
              dt_us := dt_us
              xy_scalar_override := cfg.xy_scalar_override
              x_offset := cfg.x_offset
              y_offset := cfg.y_offset }
          samples := samples
          times_ms := times_ms
          distance := _compute_cumulative_distance x y
          x := x
          y := y
          cdp := cdp }
    | none => none
  | _, _ => none

/-! ## Decimal rendering of natural numbers

`load_multiple_lines` builds collision-suffixed names with an f-string,
`f"{base_name}_{counter}"`, whose number part is core's `Nat.repr`.  To
reason about name freshness we relate `Nat.repr` to `Nat.digits` and derive
its injectivity. -/

/-- The characters `Nat.toDigits 10` produces: the decimal digits of `n`,
most significant first (`'0'` for zero). -/
def decChars (n : Nat) : List Char :=
  if n = 0 then ['0'] else ((Nat.digits 10 n).map Nat.digitChar).reverse

theorem decChars_spec (n : Nat) (hn : n ≠ 0) :
    decChars n = ((Nat.digits 10 n).map Nat.digitChar).reverse := by
  simp [decChars, hn]

theorem toDigitsCore_eq_decChars :
    ∀ (n f : Nat) (acc : List Char), n < f →
      Nat.toDigitsCore 10 f n acc = decChars n ++ acc := by
  intro n
  induction n using Nat.strong_induction_on with
  | _ n ih =>
    intro f acc hf
    match f, hf with
    | f + 1, hf =>
      show (if n / 10 = 0 then Nat.digitChar (n % 10) :: acc
            else Nat.toDigitsCore 10 f (n / 10) (Nat.digitChar (n % 10) :: acc))
          = decChars n ++ acc
      by_cases h10 : n / 10 = 0
      · rw [if_pos h10]
        rcases eq_or_ne n 0 with rfl | hn
        · simp [decChars, Nat.digitChar]
        · have hdig : Nat.digits 10 n = [n % 10] := by
            rw [Nat.digits_def' (by norm_num) (Nat.pos_of_ne_zero hn), h10]
            simp
          simp [decChars_spec n hn, hdig]
      · rw [if_neg h10]
        have hnpos : 0 < n := by
          rcases Nat.eq_zero_or_pos n with rfl | h
          · simp at h10
          · exact h
        have hdivlt : n / 10 < n := Nat.div_lt_self hnpos (by norm_num)
        have hdivf : n / 10 < f := lt_of_lt_of_le hdivlt (Nat.lt_succ_iff.mp hf)
        rw [ih (n / 10) hdivlt f _ hdivf]
        have hdig : Nat.digits 10 n
            = n % 10 :: Nat.digits 10 (n / 10) :=
          Nat.digits_def' (by norm_num) hnpos
        rw [decChars_spec n hnpos.ne', decChars_spec (n / 10) h10, hdig]
        simp

theorem toDigits_eq_decChars (n : Nat) :
    Nat.toDigits 10 n = decChars n := by
  have := toDigitsCore_eq_decChars n (n + 1) [] (Nat.lt_succ_self n)
  simpa [Nat.toDigits] using this

theorem digitChar_inj_lt_ten :
    ∀ a < 10, ∀ b < 10, Nat.digitChar a = Nat.digitChar b → a = b := by
  decide

theorem map_digitChar_inj :
    ∀ (l1 l2 : List Nat), (∀ a ∈ l1, a < 10) → (∀ a ∈ l2, a < 10) →
      l1.map Nat.digitChar = l2.map Nat.digitChar → l1 = l2 := by
  intro l1
  induction l1 with
  | nil =>
    intro l2 _ _ h
    cases l2 with
    | nil => rfl
    | cons b t => simp at h
  | cons a t ih =>
    intro l2 h1 h2 h
    cases l2 with
    | nil => simp at h
    | cons b t2 =>
      simp only [List.map_cons, List.cons.injEq] at h
      have hab : a = b :=
        digitChar_inj_lt_ten a (h1 a (List.mem_cons_self a t)) b
          (h2 b (List.mem_cons_self b t2)) h.1
      have ht : t = t2 :=
        ih t2 (fun x hx => h1 x (List.mem_cons_of_mem a hx))
          (fun x hx => h2 x (List.mem_cons_of_mem b hx)) h.2
      rw [hab, ht]

theorem decChars_injective : Function.Injective decChars := by
  intro m n h
  have key : ∀ k : Nat, k ≠ 0 → decChars k ≠ ['0'] := by
    intro k hk hcon
    rw [decChars_spec k hk] at hcon
    have hmap : (Nat.digits 10 k).map Nat.digitChar = ['0'] := by
      have := congrArg List.reverse hcon
      simpa using this
    have hdig : Nat.digits 10 k = [0] :=
      map_digitChar_inj (Nat.digits 10 k) [0]
        (fun a ha => Nat.digits_lt_base (by norm_num) ha)
        (by intro a ha; simp at ha; omega) (by simpa using hmap)
    have := Nat.ofDigits_digits 10 k
    rw [hdig] at this
    simp [Nat.ofDigits] at this
    exact hk this.symm
  rcases eq_or_ne m 0 with rfl | hm
  · rcases eq_or_ne n 0 with rfl | hn
    · rfl
    · exact absurd ((by simpa [decChars] using h.symm)) (key n hn)
  · rcases eq_or_ne n 0 with rfl | hn
    · exact absurd ((by simpa [decChars] using h)) (key m hm)
    · rw [decChars_spec m hm, decChars_spec n hn] at h
      have hmap : (Nat.digits 10 m).map Nat.digitChar
          = (Nat.digits 10 n).map Nat.digitChar := by
        have := congrArg List.reverse h
        simpa using this
      have hdig : Nat.digits 10 m = Nat.digits 10 n :=
        map_digitChar_inj _ _
          (fun a ha => Nat.digits_lt_base (by norm_num) ha)
          (fun a ha => Nat.digits_lt_base (by norm_num) ha) hmap
      have := congrArg (Nat.ofDigits 10) hdig
      rwa [Nat.ofDigits_digits, Nat.ofDigits_digits] at this

theorem natRepr_injective : Function.Injective Nat.repr := by
  intro m n h
  have h' : Nat.toDigits 10 m = Nat.toDigits 10 n := by
    have : (Nat.toDigits 10 m).asString = (Nat.toDigits 10 n).asString := h
    exact List.asString_inj.mp this
  rw [toDigits_eq_decChars, toDigits_eq_decChars] at h'
  exact decChars_injective h'

/-! ## Name de-duplication in `load_multiple_lines` -/

/-- The `i`-th candidate name tried by the collision loop of
`load_multiple_lines`: first the base name itself (loop counter 1), then
`f"{base_name}_{counter}"` for counter = 2, 3, …. -/
def candidateName (base : String) : Nat → String
  | 0 => base
  | Nat.succ i => base ++ "_" ++ Nat.repr (i + 2)

theorem candidateName_injective (base : String) :
    Function.Injective (candidateName base) := by
  intro i j h
  match i, j with
  | 0, 0 => rfl
  | 0, j + 1 =>
    exfalso
    have hlen := congrArg String.length h
    simp only [candidateName, String.length_append] at hlen
    have : ("_" : String).length = 1 := by decide
    omega
  | i + 1, 0 =>
    exfalso
    have hlen := congrArg String.length h
    simp only [candidateName, String.length_append] at hlen
    have : ("_" : String).length = 1 := by decide
    omega
  | i + 1, j + 1 =>
    have hdata := congrArg String.data h
    simp only [candidateName, String.data_append] at hdata
    rw [List.append_assoc, List.append_assoc] at hdata
    have hrepr : (Nat.repr (i + 2)).data = (Nat.repr (j + 2)).data :=
      List.append_cancel_left (List.append_cancel_left hdata)
    have : Nat.repr (i + 2) = Nat.repr (j + 2) := String.ext hrepr
    have := natRepr_injective this
    omega

/-- The collision loop terminates: some candidate name is not yet taken
(pigeonhole over the finitely many taken names). -/
theorem exists_fresh_candidate (taken : List String) (base : String) :
    ∃ i, candidateName base i ∉ taken := by
  by_contra hcon
  push_neg at hcon
  have hsub : (Finset.range (taken.length + 1)).image (candidateName base)
      ⊆ taken.toFinset := by
    intro s hs
    rcases Finset.mem_image.mp hs with ⟨i, _, rfl⟩
    exact List.mem_toFinset.mpr (hcon i)
  have hcard := Finset.card_le_card hsub
  rw [Finset.card_image_of_injective _ (candidateName_injective base),
    Finset.card_range] at hcard
  have := taken.toFinset_card_le
  omega

/-- The final name chosen by the `while final_name in lines` loop: the
first candidate not already used as a key. -/
def uniqueName (taken : List String) (base : String) : String :=
  candidateName base (Nat.find (exists_fresh_candidate taken base))

/-- The loop of `load_multiple_lines`, threading the insertion-ordered
result dict (modelled as an association list with unique keys appended in
insertion order).  Any exception from `load_segy_line` aborts the batch. -/
noncomputable def loadMultipleGo (cfg : LoadConfig) :
    List (SegyFile × String) → List (String × SegyLine) →
      Option (List (String × SegyLine))
  | [], lines => some lines
  | (f, stem) :: rest, lines =>
    match load_segy_line f cfg stem with
    | none => none
    | some line =>
      let final_name := uniqueName (lines.map Prod.fst) stem
      loadMultipleGo cfg rest
        (lines ++
          [(final_name, { line with meta := { line.meta with name := final_name } })])

/-- `load_multiple_lines`: load files in order (each identified by its
model and the path stem that provides its base name), de-duplicating names. -/
noncomputable def load_multiple_lines (files : List (SegyFile × String))
    (cfg : LoadConfig) : Option (List (String × SegyLine)) :=
  loadMultipleGo cfg files []

/-- `TraceHeaderPreview`: preview of one header field's raw values. -/
structure TraceHeaderPreview where
  field : Field
  values : List ℚ

/-- Python's slice `l[:k]` where `k` is an `int` or `None`: `None` keeps the
whole list, a non-negative bound keeps the first `k` elements, a negative
bound drops the last `|k|` elements (clamped at empty). -/
def pySliceTo (l : List ℚ) : Option Int → List ℚ
  | none => l
  | some k => if 0 ≤ k then l.take k.toNat else l.take (l.length - (-k).toNat)

/-- `preview_trace_header` body after the path-existence check: on
`KeyError` (absent field) return an empty value list, otherwise take
`attr[: max_traces or None]` — note Python's `or` turns `max_traces = 0`
into `None`, i.e. no truncation at all. -/
def preview_trace_header (f : SegyFile) (field : Field)
    (max_traces : Int) : TraceHeaderPreview :=
  match f.attributes field with
  | none => { field := field, values := [] }
  | some attr =>
    { field := field
      values := pySliceTo (attr.map (fun v : ℤ => (v : ℚ)))
        (if max_traces = 0 then none else some max_traces) }

/-! ### Helper lemmas about the running-sum of segment lengths -/

theorem segLen_nonneg (p q : ℚ × ℚ) : 0 ≤ segLen p q :=
  Real.sqrt_nonneg _

theorem segLen_self (p : ℚ × ℚ) : segLen p p = 0 := by
  simp [segLen]

theorem scanl_add_succ_getD (l : List ℝ) (acc : ℝ) (i : Nat)
    (h : i + 1 < (List.scanl (fun a s => a + s) acc l).length) :
    (List.scanl (fun a s => a + s) acc l).getD (i + 1) 0 =
      (List.scanl (fun a s => a + s) acc l).getD i 0 +
        l.getD i 0 := by
  have hi : i < (List.scanl (fun a s => a + s) acc l).length :=
    Nat.lt_of_succ_lt h
  have hil : i < l.length := by
    rw [List.length_scanl] at h
    omega
  rw [List.getD_eq_getElem _ _ h, List.getD_eq_getElem _ _ hi,
    List.getD_eq_getElem _ _ hil, List.getElem_succ_scanl]

theorem scanl_add_monotone_getD (l : List ℝ)
    (hl : ∀ k, k < l.length → 0 ≤ l.getD k 0) :
    ∀ i j, i ≤ j → j < (List.scanl (fun a s => a + s) (0 : ℝ) l).length →
      (List.scanl (fun a s => a + s) (0 : ℝ) l).getD i 0 ≤
        (List.scanl (fun a s => a + s) (0 : ℝ) l).getD j 0 := by
  intro i j hij
  induction j, hij using Nat.le_induction with
  | base => intro _; exact le_refl _
  | succ j hij ih =>
    intro hj1
    have hj : j < (List.scanl (fun a s => a + s) (0 : ℝ) l).length :=
      Nat.lt_of_succ_lt hj1
    have hjl : j < l.length := by
      rw [List.length_scanl] at hj1
      omega
    calc (List.scanl (fun a s => a + s) (0 : ℝ) l).getD i 0
        ≤ (List.scanl (fun a s => a + s) (0 : ℝ) l).getD j 0 := ih hj
      _ ≤ (List.scanl (fun a s => a + s) (0 : ℝ) l).getD (j + 1) 0 := by
          rw [scanl_add_succ_getD l 0 j hj1]
          have := hl j hjl
          linarith

theorem scanl_add_replicate_zero (m : Nat) :
    List.scanl (fun a s => a + s) (0 : ℝ) (List.replicate m 0) =
      List.replicate (m + 1) 0 := by
  induction m with
  | zero => rfl
  | succ m ih =>
    rw [List.replicate_succ, List.scanl_cons, add_zero, ih]
    simp [List.replicate_succ]

theorem cumulative_distance_replicate (n : Nat) (a b : ℚ) :
    _compute_cumulative_distance (List.replicate n a) (List.replicate n b)
      = List.replicate n 0 := by
  rcases Nat.eq_zero_or_pos n with rfl | hn
  · rfl
  · unfold _compute_cumulative_distance
    rw [if_neg (by simpa using hn.ne')]
    show List.scanl (fun acc s => acc + s) 0
        (List.zipWith segLen
          ((List.replicate n a).zip (List.replicate n b))
          ((List.replicate n a).zip (List.replicate n b)).tail)
        = List.replicate n 0
    rw [List.zip_replicate', List.tail_replicate, List.zipWith_replicate,
      segLen_self]
    rw [Nat.min_eq_right (by omega : n - 1 ≤ n),
      scanl_add_replicate_zero]
    congr 1
    omega

theorem applyAdjust_length (ov : Option ℚ) (off : ℚ) (l : List ℚ) :
    (applyOffset off (applyOverride ov l)).length = l.length := by
  cases ov <;> unfold applyOverride applyOffset <;> split_ifs <;> simp

theorem applyAdjust_getD (ov : Option ℚ) (off : ℚ) (l : List ℚ) (i : Nat)
    (hi : i < l.length) :
    (applyOffset off (applyOverride ov l)).getD i 0 =
      l.getD i 0 * ov.getD 1 + off := by
  cases ov with
  | none =>
    unfold applyOverride applyOffset
    split_ifs with h
    · subst h
      simp
    · rw [List.getD_eq_getElem _ _ (by simpa using hi), List.getElem_map,
        List.getD_eq_getElem _ _ hi]
      simp
  | some s =>
    unfold applyOverride applyOffset
    split_ifs with h
    · subst h
      rw [List.getD_eq_getElem _ _ (by simpa using hi), List.getElem_map,
        List.getD_eq_getElem _ _ hi]
      simp
    · rw [List.getD_eq_getElem _ _ (by simpa using hi), List.getElem_map,
        List.getElem_map, List.getD_eq_getElem _ _ hi]
      simp

theorem applyAdjust_id (l : List ℚ) :
    applyOffset 0 (applyOverride none l) = l := by
  unfold applyOverride applyOffset
  simp

/-! ### Anatomy of a successful `load_segy_line` -/

/-- Unpacks `load_segy_line f cfg nm = some line` into the reads it
performed and the exact contents of every field of `line`. -/
theorem load_segy_line_some_elim {f : SegyFile} {cfg : LoadConfig}
    {nm : String} {line : SegyLine}
    (h : load_segy_line f cfg nm = some line) :
    ∃ x0 y0 cdp,
      _read_and_scale_attribute f cfg.x_field
          (cfg.scalar_field.map (_read_scalars f)) = some x0 ∧
      _read_and_scale_attribute f cfg.y_field
          (cfg.scalar_field.map (_read_scalars f)) = some y0 ∧
      (match cfg.cdp_field with
       | some cf => _read_attribute f cf
       | none => some ((List.range f.samples.length).map (fun i : ℕ => (i : ℚ))))
        = some cdp ∧
      line.x = applyOffset cfg.x_offset
        (applyOverride cfg.xy_scalar_override x0) ∧
      line.y = applyOffset cfg.y_offset
        (applyOverride cfg.xy_scalar_override y0) ∧
      line.cdp = cdp ∧
      line.samples = f.samples ∧
      line.times_ms = (List.range f.samples.headI.length).map
        (fun i : ℕ => (i : ℚ) * (_read_sample_interval_us f / 1000)) ∧
      line.distance = _compute_cumulative_distance line.x line.y ∧
      line.meta =
        { name := nm
          n_traces := f.samples.length
          n_samples := f.samples.headI.length
          dt_us := _read_sample_interval_us f
          xy_scalar_override := cfg.xy_scalar_override
          x_offset := cfg.x_offset
          y_offset := cfg.y_offset } := by
  unfold load_segy_line at h
  dsimp only at h
  cases hx : _read_and_scale_attribute f cfg.x_field
      (cfg.scalar_field.map (_read_scalars f)) with
  | none =>
    rw [hx] at h
    exact Option.noConfusion h
  | some x0 =>
    cases hy : _read_and_scale_attribute f cfg.y_field
        (cfg.scalar_field.map (_read_scalars f)) with
    | none =>
      rw [hx, hy] at h
      exact Option.noConfusion h
    | some y0 =>
      rw [hx, hy] at h
      cases hc : (match cfg.cdp_field with
                  | some cf => _read_attribute f cf
                  | none => some ((List.range (_read_samples f).length).map
                      (fun i : ℕ => (i : ℚ)))) with
      | none =>
        rw [hc] at h
        exact Option.noConfusion h
      | some cdp =>
        rw [hc] at h
        refine ⟨x0, y0, cdp, rfl, rfl, ?_, ?_⟩
        · simpa [_read_samples] using hc
        · injection h with h
          subst h
          exact ⟨rfl, rfl, rfl, rfl, rfl, rfl, rfl⟩

/-- Converse packaging of `load_segy_line`: successful reads determine the
whole returned line. -/
theorem load_segy_line_some_intro (f : SegyFile) (cfg : LoadConfig)
    (nm : String) (x0 y0 cdp : List ℚ)
    (hx : _read_and_scale_attribute f cfg.x_field
      (cfg.scalar_field.map (_read_scalars f)) = some x0)
    (hy : _read_and_scale_attribute f cfg.y_field
      (cfg.scalar_field.map (_read_scalars f)) = some y0)
    (hc : (match cfg.cdp_field with
           | some cf => _read_attribute f cf
           | none => some ((List.range f.samples.length).map (fun i : ℕ => (i : ℚ))))
          = some cdp) :
    load_segy_line f cfg nm = some
      { meta :=
          { name := nm
            n_traces := f.samples.length
            n_samples := f.samples.headI.length
            dt_us := _read_sample_interval_us f
            xy_scalar_override := cfg.xy_scalar_override
            x_offset := cfg.x_offset
            y_offset := cfg.y_offset }
        samples := f.samples
        times_ms := (List.range f.samples.headI.length).map
          (fun i : ℕ => (i : ℚ) * (_read_sample_interval_us f / 1000))
        distance := _compute_cumulative_distance
          (applyOffset cfg.x_offset (applyOverride cfg.xy_scalar_override x0))
          (applyOffset cfg.y_offset (applyOverride cfg.xy_scalar_override y0))
        x := applyOffset cfg.x_offset (applyOverride cfg.xy_scalar_override x0)
        y := applyOffset cfg.y_offset (applyOverride cfg.xy_scalar_override y0)
        cdp := cdp } := by
  have hc' : (match cfg.cdp_field with
              | some cf => _read_attribute f cf
              | none => some ((List.range (_read_samples f).length).map
                  (fun i : ℕ => (i : ℚ)))) = some cdp := hc
  unfold load_segy_line
  dsimp only
  rw [hx, hy, hc']
  rfl

/-! ## Concrete fixture files used by witnesses and counterexamples -/

/-- A two-trace fixture file whose default-field attributes are all
present: X = [1000, 1000], Y = [2000, 3000], scalar = [100, -100],
CDP = [7, 8]. -/
def fileA : SegyFile where
  tracecount := 2
  n_samples := 1
  samples := [[5], [6]]
  dt_tools := some 1000
  bin_interval := 1000
  attributes := fun fld =>
    if fld = 73 then some [1000, 1000]
    else if fld = 77 then some [2000, 3000]
    else if fld = 71 then some [100, -100]
    else if fld = 21 then some [7, 8]
    else none

theorem fileA_WF : fileA.WF := by
  refine ⟨rfl, ?_, ?_⟩
  · intro row hrow
    simp only [fileA, List.mem_cons, List.not_mem_nil, or_false] at hrow
    rcases hrow with rfl | rfl <;> rfl
  · intro fld vs h
    simp only [fileA] at h
    split_ifs at h <;>
      first
      | (injection h with h; rw [← h]; rfl)
      | exact Option.noConfusion h

/-- A two-trace, two-sample fixture with constant coordinates:
X = [5, 5], Y = [6, 6], scalar = [0, 0] (pass-through), CDP = [7, 8],
sample interval 2000 µs. -/
def fileB : SegyFile where
  tracecount := 2
  n_samples := 2
  samples := [[1, 2], [3, 4]]
  dt_tools := some 2000
  bin_interval := 2000
  attributes := fun fld =>
    if fld = 73 then some [5, 5]
    else if fld = 77 then some [6, 6]
    else if fld = 71 then some [0, 0]
    else if fld = 21 then some [7, 8]
    else none

theorem fileB_WF : fileB.WF := by
  refine ⟨rfl, ?_, ?_⟩
  · intro row hrow
    simp only [fileB, List.mem_cons, List.not_mem_nil, or_false] at hrow
    rcases hrow with rfl | rfl <;> rfl
  · intro fld vs h
    simp only [fileB] at h
    split_ifs at h <;>
      first
      | (injection h with h; rw [← h]; rfl)
      | exact Option.noConfusion h

/-- A configuration exercising the manual adjustments: override scale 2,
X offset 3, Y offset 4 (all other fields at their defaults). -/
def cfgB : LoadConfig where
  xy_scalar_override := some 2
  x_offset := 3
  y_offset := 4

/-- The line `load_segy_line fileB cfgB nm` produces. -/
def lineB (nm : String) : SegyLine where
  meta :=
    { name := nm
      n_traces := 2
      n_samples := 2
      dt_us := 2000
      xy_scalar_override := some 2
      x_offset := 3
      y_offset := 4 }
  samples := [[1, 2], [3, 4]]
  times_ms := [0, 2]
  distance := [0, 0]
  x := [13, 13]
  y := [16, 16]
  cdp := [7, 8]

theorem fileB_read_x :
    _read_and_scale_attribute fileB cfgB.x_field
      (cfgB.scalar_field.map (_read_scalars fileB)) = some [5, 5] := by
  norm_num [cfgB, DEFAULT_X_FIELD, DEFAULT_Y_FIELD, DEFAULT_SCALAR_FIELD,
    _read_and_scale_attribute, _read_attribute, _read_scalars,
    fileB, scaleValue]

theorem fileB_read_y :
    _read_and_scale_attribute fileB cfgB.y_field
      (cfgB.scalar_field.map (_read_scalars fileB)) = some [6, 6] := by
  norm_num [cfgB, DEFAULT_X_FIELD, DEFAULT_Y_FIELD, DEFAULT_SCALAR_FIELD,
    _read_and_scale_attribute, _read_attribute, _read_scalars,
    fileB, scaleValue]

theorem load_fileB_cfgB (nm : String) :
    load_segy_line fileB cfgB nm = some (lineB nm) := by
  have h := load_segy_line_some_intro fileB cfgB nm [5, 5] [6, 6] [7, 8]
    fileB_read_x fileB_read_y
    (by norm_num [cfgB, DEFAULT_CDP_FIELD, _read_attribute, fileB])
  rw [h]
  have hx : applyOffset cfgB.x_offset
      (applyOverride cfgB.xy_scalar_override [5, 5]) = [13, 13] := by
    norm_num [cfgB, applyOffset, applyOverride]
  have hy : applyOffset cfgB.y_offset
      (applyOverride cfgB.xy_scalar_override [6, 6]) = [16, 16] := by
    norm_num [cfgB, applyOffset, applyOverride]
  have hdist : _compute_cumulative_distance [13, 13] [16, 16] = [0, 0] := by
    have := cumulative_distance_replicate 2 (13 : ℚ) (16 : ℚ)
    simpa [List.replicate] using this
  rw [hx, hy, hdist]
  norm_num [lineB, cfgB, SegyLine.mk.injEq, SegyLineMeta.mk.injEq, fileB,
    _read_sample_interval_us, List.range_succ]

/-! ### Length bookkeeping for loaded arrays -/

theorem read_scalars_length (f : SegyFile) (sf : Field) (hwf : f.WF) :
    (_read_scalars f sf).length = f.tracecount := by
  unfold _read_scalars
  cases h : f.attributes sf with
  | none => simp
  | some s => exact hwf.2.2 sf s h

theorem read_attribute_length (f : SegyFile) (fld : Field) (v : List ℚ)
    (hwf : f.WF) (h : _read_attribute f fld = some v) :
    v.length = f.tracecount := by
  unfold _read_attribute at h
  cases hattr : f.attributes fld with
  | none =>
    rw [hattr] at h
    exact Option.noConfusion h
  | some vs =>
    rw [hattr] at h
    injection h with h
    rw [← h, List.length_map]
    exact hwf.2.2 fld vs hattr

theorem read_and_scale_length (f : SegyFile) (fld : Field)
    (sc : Option (List ℤ)) (x0 : List ℚ) (hwf : f.WF)
    (hsc : ∀ s, sc = some s → s.length = f.tracecount)
    (h : _read_and_scale_attribute f fld sc = some x0) :
    x0.length = f.tracecount := by
  unfold _read_and_scale_attribute at h
  cases hattr : _read_attribute f fld with
  | none =>
    rw [hattr] at h
    exact Option.noConfusion h
  | some values =>
    rw [hattr] at h
    have hv : values.length = f.tracecount :=
      read_attribute_length f fld values hwf hattr
    injection h with h
    cases sc with
    | none =>
      rw [← h]
      exact hv
    | some s =>
      rw [← h, List.length_zipWith, hv, hsc s rfl]
      omega

theorem scalars_option_length (f : SegyFile) (cfg : LoadConfig)
    (hwf : f.WF) :
    ∀ s, cfg.scalar_field.map (_read_scalars f) = some s →
      s.length = f.tracecount := by
  intro s h
  cases hs : cfg.scalar_field with
  | none =>
    rw [hs] at h
    exact Option.noConfusion h
  | some sf =>
    rw [hs] at h
    injection h with h
    rw [← h]
    exact read_scalars_length f sf hwf

theorem cumulative_distance_length (x y : List ℚ)
    (h : x.length = y.length) :
    (_compute_cumulative_distance x y).length = x.length := by
  unfold _compute_cumulative_distance
  split_ifs with h0
  · simp [h0]
  · show (List.scanl (fun acc s => acc + s) 0
      (List.zipWith segLen (x.zip y) (x.zip y).tail)).length = x.length
    rw [List.length_scanl, List.length_zipWith, List.length_tail,
      List.length_zip]
    omega

/-! ## Claims -/

/-- C1: coordinate scaling follows the signed-scalar three-way rule,
applied independently per trace: scalar 0 passes the raw value through,
a positive scalar divides, a negative scalar multiplies by its absolute
value; raw 1000 with scalar 100 gives 10 and with scalar -100 gives
100000. -/
theorem scaling_three_way_rule :
    (∀ (f : SegyFile) (fld : Field) (values res : List ℚ) (scalars : List ℤ),
      _read_attribute f fld = some values →
      _read_and_scale_attribute f fld (some scalars) = some res →
      ∀ i, i < res.length →
        res.getD i 0 =
          (if scalars.getD i 0 = 0 then values.getD i 0
           else if 0 < scalars.getD i 0 then
             values.getD i 0 / ((scalars.getD i 0 : ℤ) : ℚ)
           else values.getD i 0 * (((scalars.getD i 0).natAbs : ℤ) : ℚ))) ∧
    scaleValue 1000 100 = 10 ∧ scaleValue 1000 (-100) = 100000 := by
  refine ⟨?_, by norm_num [scaleValue], by norm_num [scaleValue]⟩
  intro f fld values res scalars h1 h2 i hi
  unfold _read_and_scale_attribute at h2
  rw [h1] at h2
  simp only [Option.map_some', Option.some.injEq] at h2
  subst h2
  have hiv : i < values.length := by
    rw [List.length_zipWith] at hi
    omega
  have his : i < scalars.length := by
    rw [List.length_zipWith] at hi
    omega
  rw [List.getD_eq_getElem _ _ hi, List.getD_eq_getElem _ _ hiv,
    List.getD_eq_getElem _ _ his, List.getElem_zipWith]
  rfl

/-- Witness for C1 at trace 0 of `fileA`'s X field with scalars
[100, -100]: raw 1000 with scalar 100 scales to 10. -/
theorem scaling_three_way_rule_witness :
    _read_attribute fileA 73 = some [1000, 1000] ∧
    _read_and_scale_attribute fileA 73 (some [100, -100])
      = some [10, 100000] ∧
    (0 : Nat) < 2 ∧
    ([10, 100000] : List ℚ).getD 0 0 =
      (if ([100, -100] : List ℤ).getD 0 0 = 0
       then ([1000, 1000] : List ℚ).getD 0 0
       else if 0 < ([100, -100] : List ℤ).getD 0 0 then
         ([1000, 1000] : List ℚ).getD 0 0
           / ((([100, -100] : List ℤ).getD 0 0 : ℤ) : ℚ)
       else ([1000, 1000] : List ℚ).getD 0 0
           * (((([100, -100] : List ℤ).getD 0 0).natAbs : ℤ) : ℚ)) :=
  ⟨by norm_num [_read_attribute, fileA],
    by norm_num [_read_and_scale_attribute, _read_attribute, fileA, scaleValue],
    by decide,
    scaling_three_way_rule.1 fileA 73 [1000, 1000] [10, 100000]
      [100, -100] (by norm_num [_read_attribute, fileA])
      (by norm_num [_read_and_scale_attribute, _read_attribute, fileA, scaleValue])
      0 (by decide)⟩

/-- C3: cumulative distance is empty on empty input; otherwise it starts at
0 and accumulates consecutive Euclidean segment lengths; it is
non-decreasing for all inputs; and all-coincident coordinates give an
all-zero array. -/
theorem cumulative_distance_spec :
    _compute_cumulative_distance [] [] = [] ∧
    (∀ x y : List ℚ, x ≠ [] →
      (_compute_cumulative_distance x y).getD 0 0 = 0) ∧
    (∀ x y : List ℚ, x.length = y.length → x ≠ [] →
      ∀ i, i + 1 < (_compute_cumulative_distance x y).length →
        (_compute_cumulative_distance x y).getD (i + 1) 0 =
          (_compute_cumulative_distance x y).getD i 0 +
            Real.sqrt (((x.getD (i + 1) 0 - x.getD i 0 : ℚ) : ℝ) ^ 2 +
              ((y.getD (i + 1) 0 - y.getD i 0 : ℚ) : ℝ) ^ 2)) ∧
    (∀ x y : List ℚ, ∀ i j, i ≤ j →
      j < (_compute_cumulative_distance x y).length →
        (_compute_cumulative_distance x y).getD i 0 ≤
          (_compute_cumulative_distance x y).getD j 0) ∧
    (∀ (n : Nat) (a b : ℚ),
      _compute_cumulative_distance (List.replicate n a) (List.replicate n b)
        = List.replicate n 0) := by
  refine ⟨rfl, ?_, ?_, ?_, ?_⟩
  · -- head is zero
    intro x y hx
    have hlen : x.length ≠ 0 := by simpa [List.length_eq_zero] using hx
    unfold _compute_cumulative_distance
    rw [if_neg hlen]
    have h0 : 0 < (List.scanl (fun a s => a + s) (0 : ℝ)
        (List.zipWith segLen (x.zip y) (x.zip y).tail)).length := by
      rw [List.length_scanl]
      omega
    rw [List.getD_eq_getElem _ _ h0, List.getElem_scanl_zero]
  · -- recurrence
    intro x y hxy hx i hi
    have hlen : x.length ≠ 0 := by simpa [List.length_eq_zero] using hx
    unfold _compute_cumulative_distance at hi ⊢
    rw [if_neg hlen] at hi ⊢
    rw [scanl_add_succ_getD _ _ _ hi]
    congr 1
    have hisegs : i < (List.zipWith segLen (x.zip y) (x.zip y).tail).length := by
      rw [List.length_scanl] at hi
      omega
    have hcoords : i + 1 < (x.zip y).length := by
      rw [List.length_zipWith, List.length_tail] at hisegs
      omega
    have hx1 : i + 1 < x.length := by
      rw [List.length_zip] at hcoords
      omega
    have hy1 : i + 1 < y.length := by
      rw [List.length_zip] at hcoords
      omega
    have htail : i < (x.zip y).tail.length := by
      rw [List.length_tail]
      omega
    rw [List.getD_eq_getElem _ _ hisegs, List.getElem_zipWith,
      List.getElem_tail,
      List.getElem_zip, List.getElem_zip,
      List.getD_eq_getElem _ _ hx1, List.getD_eq_getElem _ _ hy1,
      List.getD_eq_getElem _ _ (Nat.lt_of_succ_lt hx1),
      List.getD_eq_getElem _ _ (Nat.lt_of_succ_lt hy1)]
    simp [segLen]
  · -- non-decreasing
    intro x y i j hij hj
    rcases Nat.eq_zero_or_pos x.length with hx0 | hxpos
    · unfold _compute_cumulative_distance at hj
      rw [if_pos hx0] at hj
      simp at hj
    · unfold _compute_cumulative_distance at hj ⊢
      rw [if_neg (Nat.pos_iff_ne_zero.mp hxpos)] at hj ⊢
      refine scanl_add_monotone_getD _ ?_ i j hij hj
      intro k hk
      rw [List.getD_eq_getElem _ _ hk, List.getElem_zipWith]
      exact segLen_nonneg _ _
  · -- all-coincident coordinates give all zeros
    exact fun n a b => cumulative_distance_replicate n a b

/-- C2: in `load_segy_line` the manual adjustments apply after scalar
normalization, in the fixed order override-scale first then additive
offsets, independently for X and Y; with no override and zero offsets the
coordinates equal the scalar-normalized values. -/
theorem load_line_adjustment_order :
    ∀ (f : SegyFile) (cfg : LoadConfig) (nm : String) (line : SegyLine)
      (x0 y0 : List ℚ),
      load_segy_line f cfg nm = some line →
      _read_and_scale_attribute f cfg.x_field
        (cfg.scalar_field.map (_read_scalars f)) = some x0 →
      _read_and_scale_attribute f cfg.y_field
        (cfg.scalar_field.map (_read_scalars f)) = some y0 →
      (∀ i, i < line.x.length →
        line.x.getD i 0 =
          x0.getD i 0 * cfg.xy_scalar_override.getD 1 + cfg.x_offset) ∧
      (∀ i, i < line.y.length →
        line.y.getD i 0 =
          y0.getD i 0 * cfg.xy_scalar_override.getD 1 + cfg.y_offset) ∧
      (cfg.xy_scalar_override = none → cfg.x_offset = 0 → cfg.y_offset = 0 →
        line.x = x0 ∧ line.y = y0) := by
  intro f cfg nm line x0 y0 hload hx hy
  obtain ⟨x0', y0', cdp, hx', hy', _, hlx, hly, _⟩ :=
    load_segy_line_some_elim hload
  rw [hx] at hx'
  rw [hy] at hy'
  injection hx' with hx'
  injection hy' with hy'
  subst hx'
  subst hy'
  refine ⟨?_, ?_, ?_⟩
  · intro i hi
    rw [hlx] at hi ⊢
    rw [applyAdjust_length] at hi
    exact applyAdjust_getD _ _ _ _ hi
  · intro i hi
    rw [hly] at hi ⊢
    rw [applyAdjust_length] at hi
    exact applyAdjust_getD _ _ _ _ hi
  · intro hov hox hoy
    rw [hlx, hly, hov, hox, hoy, applyAdjust_id, applyAdjust_id]
    exact ⟨rfl, rfl⟩

/-- Witness for C3 on the two-trace coincident input x = [1, 1],
y = [2, 2]: the head is 0, the recurrence holds at i = 0, the array is
non-decreasing from index 0 to 1, and the replicate form is all zeros. -/
theorem cumulative_distance_spec_witness :
    ([1, 1] : List ℚ) ≠ [] ∧
    (_compute_cumulative_distance [1, 1] [2, 2]).getD 0 0 = 0 ∧
    (_compute_cumulative_distance [1, 1] [2, 2]).getD 1 0 =
      (_compute_cumulative_distance [1, 1] [2, 2]).getD 0 0 +
        Real.sqrt ((((1 : ℚ) - 1 : ℚ) : ℝ) ^ 2 + (((2 : ℚ) - 2 : ℚ) : ℝ) ^ 2) ∧
    (_compute_cumulative_distance [1, 1] [2, 2]).getD 0 0 ≤
      (_compute_cumulative_distance [1, 1] [2, 2]).getD 1 0 ∧
    _compute_cumulative_distance (List.replicate 2 (1 : ℚ))
        (List.replicate 2 (2 : ℚ)) = List.replicate 2 0 := by
  have hlen : (_compute_cumulative_distance [1, 1] [2, 2]).length = 2 := by
    unfold _compute_cumulative_distance
    rw [if_neg (by norm_num)]
    rw [List.length_scanl]
    rfl
  refine ⟨by simp, cumulative_distance_spec.2.1 [1, 1] [2, 2] (by simp), ?_, ?_, ?_⟩
  · have := cumulative_distance_spec.2.2.1 [1, 1] [2, 2] rfl (by simp) 0
      (by rw [hlen]; omega)
    simpa using this
  · exact cumulative_distance_spec.2.2.2.1 [1, 1] [2, 2] 0 1 (by omega)
      (by rw [hlen]; omega)
  · exact cumulative_distance_spec.2.2.2.2 2 1 2

/-- Witness for C2 on `fileB` with override 2 and offsets (3, 4): trace 0
has scalar-normalized X 5, and final X 5 * 2 + 3 = 13. -/
theorem load_line_adjustment_order_witness :
    load_segy_line fileB cfgB "b" = some (lineB "b") ∧
    _read_and_scale_attribute fileB cfgB.x_field
      (cfgB.scalar_field.map (_read_scalars fileB)) = some [5, 5] ∧
    _read_and_scale_attribute fileB cfgB.y_field
      (cfgB.scalar_field.map (_read_scalars fileB)) = some [6, 6] ∧
    (0 : Nat) < (lineB "b").x.length ∧
    (lineB "b").x.getD 0 0 =
      ([5, 5] : List ℚ).getD 0 0 * cfgB.xy_scalar_override.getD 1
        + cfgB.x_offset :=
  ⟨load_fileB_cfgB "b", fileB_read_x, fileB_read_y,
    by norm_num [lineB],
    (load_line_adjustment_order fileB cfgB "b" (lineB "b") [5, 5] [6, 6]
      (load_fileB_cfgB "b") fileB_read_x fileB_read_y).1 0
      (by norm_num [lineB])⟩

/-- C5: every line a successful `load_segy_line` produces satisfies the
shape invariants: metadata trace count is the number of sample-grid rows,
metadata sample count is the number of columns, the time axis has length
sample count, and x, y, cdp and distance all have length trace count. -/
theorem load_line_shape_invariants :
    ∀ (f : SegyFile) (cfg : LoadConfig) (nm : String) (line : SegyLine),
      f.WF → load_segy_line f cfg nm = some line →
      line.meta.n_traces = line.samples.length ∧
      (∀ row ∈ line.samples, row.length = line.meta.n_samples) ∧
      line.times_ms.length = line.meta.n_samples ∧
      line.x.length = line.meta.n_traces ∧
      line.y.length = line.meta.n_traces ∧
      line.cdp.length = line.meta.n_traces ∧
      line.distance.length = line.meta.n_traces := by
  intro f cfg nm line hwf hload
  obtain ⟨x0, y0, cdp, hx, hy, hc, hlx, hly, hlcdp, hlsamp, hltimes, hldist,
    hlmeta⟩ := load_segy_line_some_elim hload
  have hx0len : x0.length = f.tracecount :=
    read_and_scale_length f cfg.x_field _ x0 hwf
      (scalars_option_length f cfg hwf) hx
  have hy0len : y0.length = f.tracecount :=
    read_and_scale_length f cfg.y_field _ y0 hwf
      (scalars_option_length f cfg hwf) hy
  have hxlen : line.x.length = f.tracecount := by
    rw [hlx, applyAdjust_length, hx0len]
  have hylen : line.y.length = f.tracecount := by
    rw [hly, applyAdjust_length, hy0len]
  have hsamplen : f.samples.length = f.tracecount := hwf.1
  have hntr : line.meta.n_traces = f.samples.length := by rw [hlmeta]
  have hnsamp : line.meta.n_samples = f.samples.headI.length := by
    rw [hlmeta]
  refine ⟨?_, ?_, ?_, ?_, ?_, ?_, ?_⟩
  · rw [hntr, hlsamp]
  · intro row hrow
    rw [hlsamp] at hrow
    rw [hnsamp]
    cases hs : f.samples with
    | nil =>
      rw [hs] at hrow
      exact absurd hrow (List.not_mem_nil row)
    | cons r t =>
      have hr : r ∈ f.samples := by
        rw [hs]
        exact List.mem_cons_self r t
      show row.length = r.length
      rw [hwf.2.1 row hrow, hwf.2.1 r hr]
  · rw [hltimes, hnsamp, List.length_map, List.length_range]
  · rw [hxlen, hntr, hsamplen]
  · rw [hylen, hntr, hsamplen]
  · rw [hlcdp, hntr]
    cases hcf : cfg.cdp_field with
    | some cf =>
      rw [hcf] at hc
      rw [read_attribute_length f cf cdp hwf hc, hsamplen]
    | none =>
      rw [hcf] at hc
      injection hc with hc
      rw [← hc, List.length_map, List.length_range]
  · rw [hldist, cumulative_distance_length _ _ (by rw [hxlen, hylen]),
      hxlen, hntr, hsamplen]

/-- Witness for C5: the concrete load of `fileB` under `cfgB` satisfies
every shape invariant. -/
theorem load_line_shape_invariants_witness :
    fileB.WF ∧
    load_segy_line fileB cfgB "b" = some (lineB "b") ∧
    ((lineB "b").meta.n_traces = (lineB "b").samples.length ∧
      (∀ row ∈ (lineB "b").samples, row.length = (lineB "b").meta.n_samples) ∧
      (lineB "b").times_ms.length = (lineB "b").meta.n_samples ∧
      (lineB "b").x.length = (lineB "b").meta.n_traces ∧
      (lineB "b").y.length = (lineB "b").meta.n_traces ∧
      (lineB "b").cdp.length = (lineB "b").meta.n_traces ∧
      (lineB "b").distance.length = (lineB "b").meta.n_traces) :=
  ⟨fileB_WF, load_fileB_cfgB "b",
    load_line_shape_invariants fileB cfgB "b" (lineB "b") fileB_WF
      (load_fileB_cfgB "b")⟩

/-! ### Fixture for C6: a file whose interval data is zero -/

/-- The all-defaults configuration of `load_segy_line`. -/
def cfgDefault : LoadConfig := {}

/-- A one-trace, two-sample file whose `tools.dt` is `None` and whose
binary-header interval is 0: the source of the interval provides zero /
missing data. -/
def fileZ : SegyFile where
  tracecount := 1
  n_samples := 2
  samples := [[3, 4]]
  dt_tools := none
  bin_interval := 0
  attributes := fun fld =>
    if fld = 73 then some [0]
    else if fld = 77 then some [0]
    else if fld = 71 then some [0]
    else if fld = 21 then some [0]
    else none

/-- The line `load_segy_line fileZ {} "z"` produces: its interval is 0 and
its time axis is constantly 0. -/
def lineZ : SegyLine where
  meta :=
    { name := "z"
      n_traces := 1
      n_samples := 2
      dt_us := 0
      xy_scalar_override := none
      x_offset := 0
      y_offset := 0 }
  samples := [[3, 4]]
  times_ms := [0, 0]
  distance := [0]
  x := [0]
  y := [0]
  cdp := [0]

theorem load_fileZ :
    load_segy_line fileZ cfgDefault "z" = some lineZ := by
  have h := load_segy_line_some_intro fileZ cfgDefault "z" [0] [0] [0]
    (by norm_num [cfgDefault, DEFAULT_X_FIELD, DEFAULT_SCALAR_FIELD,
      _read_and_scale_attribute, _read_attribute, _read_scalars, fileZ,
      scaleValue])
    (by norm_num [cfgDefault, DEFAULT_Y_FIELD, DEFAULT_SCALAR_FIELD,
      _read_and_scale_attribute, _read_attribute, _read_scalars, fileZ,
      scaleValue])
    (by norm_num [cfgDefault, DEFAULT_CDP_FIELD, _read_attribute, fileZ])
  rw [h]
  have hadjx : applyOffset cfgDefault.x_offset
      (applyOverride cfgDefault.xy_scalar_override [0]) = [0] := by
    norm_num [cfgDefault, applyOffset, applyOverride]
  have hadjy : applyOffset cfgDefault.y_offset
      (applyOverride cfgDefault.xy_scalar_override [0]) = [0] := by
    norm_num [cfgDefault, applyOffset, applyOverride]
  have hdist : _compute_cumulative_distance [0] [0] = [0] := by
    have := cumulative_distance_replicate 1 (0 : ℚ) (0 : ℚ)
    simpa [List.replicate] using this
  rw [hadjx, hadjy, hdist]
  norm_num [lineZ, cfgDefault, SegyLine.mk.injEq, SegyLineMeta.mk.injEq,
    fileZ, _read_sample_interval_us, List.range_succ]

/-- C6 counterexample: on `fileZ` (whose interval source yields zero data)
the sample-interval reader returns 0 — not a positive value and not the
claimed 1000.0 fallback — and the resulting time axis `[0, 0]` is not
strictly increasing. -/
theorem sample_interval_counterexample :
    _read_sample_interval_us fileZ = 0 ∧
    ¬ 0 < _read_sample_interval_us fileZ ∧
    ¬ _read_sample_interval_us fileZ = 1000 ∧
    load_segy_line fileZ cfgDefault "z" = some lineZ ∧
    lineZ.times_ms = [0, 0] ∧
    ¬ lineZ.times_ms.getD 0 0 < lineZ.times_ms.getD 1 0 := by
  refine ⟨rfl, by norm_num [_read_sample_interval_us, fileZ],
    by norm_num [_read_sample_interval_us, fileZ], load_fileZ, rfl, ?_⟩
  norm_num [lineZ]

/-- C6 (amended): `times_ms[i] = i * (dt_us / 1000)` always; when the
sample interval is positive the axis is strictly increasing with constant
step `dt_us / 1000`; the reader prefers the library interval and falls
back to the binary-header interval field when the library gives none —
it does not enforce positivity and never substitutes 1000.0. -/
theorem times_axis_formula :
    (∀ (f : SegyFile) (cfg : LoadConfig) (nm : String) (line : SegyLine),
      load_segy_line f cfg nm = some line →
      ∀ i, i < line.times_ms.length →
        line.times_ms.getD i 0 = (i : ℚ) * (line.meta.dt_us / 1000)) ∧
    (∀ (f : SegyFile) (cfg : LoadConfig) (nm : String) (line : SegyLine),
      load_segy_line f cfg nm = some line →
      0 < line.meta.dt_us →
      ∀ i, i + 1 < line.times_ms.length →
        line.times_ms.getD i 0 < line.times_ms.getD (i + 1) 0 ∧
        line.times_ms.getD (i + 1) 0 - line.times_ms.getD i 0
          = line.meta.dt_us / 1000) ∧
    (∀ f : SegyFile, f.dt_tools = none →
      _read_sample_interval_us f = f.bin_interval) ∧
    (∀ (f : SegyFile) (q : ℚ), f.dt_tools = some q →
      _read_sample_interval_us f = q) := by
  have key : ∀ (f : SegyFile) (cfg : LoadConfig) (nm : String)
      (line : SegyLine), load_segy_line f cfg nm = some line →
      ∀ i, i < line.times_ms.length →
        line.times_ms.getD i 0 = (i : ℚ) * (line.meta.dt_us / 1000) := by
    intro f cfg nm line hload i hi
    obtain ⟨x0, y0, cdp, _, _, _, _, _, _, _, hltimes, _, hlmeta⟩ :=
      load_segy_line_some_elim hload
    have hdt : line.meta.dt_us = _read_sample_interval_us f := by
      rw [hlmeta]
    rw [hltimes] at hi ⊢
    have hir : i < (List.range f.samples.headI.length).length := by
      simpa using hi
    rw [List.getD_eq_getElem _ _ hi, List.getElem_map, List.getElem_range,
      hdt]
  refine ⟨key, ?_, ?_, ?_⟩
  · intro f cfg nm line hload hdt i hi1
    have hi : i < line.times_ms.length := Nat.lt_of_succ_lt hi1
    have h1 := key f cfg nm line hload i hi
    have h2 := key f cfg nm line hload (i + 1) hi1
    have hstep : (0 : ℚ) < line.meta.dt_us / 1000 := by positivity
    constructor
    · rw [h1, h2]
      have : ((i : ℚ)) < ((i : ℚ) + 1) := by linarith
      push_cast
      nlinarith
    · rw [h1, h2]
      push_cast
      ring
  · intro f h
    unfold _read_sample_interval_us
    rw [h]
  · intro f q h
    unfold _read_sample_interval_us
    rw [h]

/-- Witness for C6 (amended) on `fileB` (interval 2000 µs): at i = 0 the
time axis steps from 0 to 2 ms. -/
theorem times_axis_formula_witness :
    load_segy_line fileB cfgB "b" = some (lineB "b") ∧
    (0 : ℚ) < (lineB "b").meta.dt_us ∧
    0 + 1 < (lineB "b").times_ms.length ∧
    ((lineB "b").times_ms.getD 0 0 < (lineB "b").times_ms.getD (0 + 1) 0 ∧
      (lineB "b").times_ms.getD (0 + 1) 0 - (lineB "b").times_ms.getD 0 0
        = (lineB "b").meta.dt_us / 1000) ∧
    fileB.dt_tools = some 2000 ∧
    _read_sample_interval_us fileB = 2000 :=
  ⟨load_fileB_cfgB "b", by norm_num [lineB], by norm_num [lineB],
    times_axis_formula.2.1 fileB cfgB "b" (lineB "b") (load_fileB_cfgB "b")
      (by norm_num [lineB]) 0 (by norm_num [lineB]),
    rfl, times_axis_formula.2.2.2 fileB 2000 rfl⟩

/-! ### Fixture for C7: no CDP field configured -/

/-- `cfgB` without a CDP field: CDP must be synthesized. -/
def cfgC : LoadConfig where
  cdp_field := none

/-- The line `load_segy_line fileB cfgC nm` produces (no adjustments, CDP
synthesized as trace indices). -/
def lineC (nm : String) : SegyLine where
  meta :=
    { name := nm
      n_traces := 2
      n_samples := 2
      dt_us := 2000
      xy_scalar_override := none
      x_offset := 0
      y_offset := 0 }
  samples := [[1, 2], [3, 4]]
  times_ms := [0, 2]
  distance := [0, 0]
  x := [5, 5]
  y := [6, 6]
  cdp := [0, 1]

theorem load_fileB_cfgC (nm : String) :
    load_segy_line fileB cfgC nm = some (lineC nm) := by
  have h := load_segy_line_some_intro fileB cfgC nm [5, 5] [6, 6] [0, 1]
    (by norm_num [cfgC, DEFAULT_X_FIELD, DEFAULT_SCALAR_FIELD,
      _read_and_scale_attribute, _read_attribute, _read_scalars, fileB,
      scaleValue])
    (by norm_num [cfgC, DEFAULT_Y_FIELD, DEFAULT_SCALAR_FIELD,
      _read_and_scale_attribute, _read_attribute, _read_scalars, fileB,
      scaleValue])
    (by norm_num [cfgC, fileB, List.range_succ])
  rw [h]
  have hadj : ∀ l : List ℚ, applyOffset cfgC.x_offset
      (applyOverride cfgC.xy_scalar_override l) = l := by
    intro l
    norm_num [cfgC, applyOffset, applyOverride]
  have hdist : _compute_cumulative_distance [5, 5] [6, 6] = [0, 0] := by
    have := cumulative_distance_replicate 2 (5 : ℚ) (6 : ℚ)
    simpa [List.replicate] using this
  rw [show applyOffset cfgC.x_offset
      (applyOverride cfgC.xy_scalar_override [5, 5]) = [5, 5] from hadj _,
    show applyOffset cfgC.y_offset
      (applyOverride cfgC.xy_scalar_override [6, 6]) = [6, 6] from by
        norm_num [cfgC, applyOffset, applyOverride]]
  rw [hdist]
  norm_num [lineC, cfgC, SegyLine.mk.injEq, SegyLineMeta.mk.injEq, fileB,
    _read_sample_interval_us, List.range_succ]

/-- C7: with no CDP field configured, the loaded line's CDP array is
exactly the trace indices 0 .. trace_count - 1. -/
theorem cdp_defaults_to_trace_indices :
    ∀ (f : SegyFile) (cfg : LoadConfig) (nm : String) (line : SegyLine),
      cfg.cdp_field = none → load_segy_line f cfg nm = some line →
      line.cdp = (List.range line.meta.n_traces).map (fun i : ℕ => (i : ℚ)) := by
  intro f cfg nm line hcf hload
  obtain ⟨x0, y0, cdp, _, _, hc, _, _, hlcdp, _, _, _, hlmeta⟩ :=
    load_segy_line_some_elim hload
  rw [hcf] at hc
  injection hc with hc
  rw [hlcdp, ← hc, hlmeta]

/-- Witness for C7: loading `fileB` without a CDP field yields
CDP = [0, 1]. -/
theorem cdp_defaults_to_trace_indices_witness :
    cfgC.cdp_field = none ∧
    load_segy_line fileB cfgC "c" = some (lineC "c") ∧
    (lineC "c").cdp =
      (List.range (lineC "c").meta.n_traces).map (fun i : ℕ => (i : ℚ)) :=
  ⟨rfl, load_fileB_cfgC "c",
    cdp_defaults_to_trace_indices fileB cfgC "c" (lineC "c") rfl
      (load_fileB_cfgC "c")⟩

/-! ### C8: header preview -/

/-- C8 counterexample: `fileB`'s X field is present with two values, yet
`preview_trace_header` with `max_traces = 0` returns both values — Python's
`attr[: max_traces or None]` treats 0 as "no limit", so the result is not
"at most `max_traces` values". -/
theorem preview_max_traces_zero_counterexample :
    fileB.attributes 73 = some [5, 5] ∧
    (preview_trace_header fileB 73 0).values = [5, 5] ∧
    ¬ (preview_trace_header fileB 73 0).values.length ≤ 0 := by
  refine ⟨by norm_num [fileB], ?_, ?_⟩
  · norm_num [preview_trace_header, fileB, pySliceTo]
  · norm_num [preview_trace_header, fileB, pySliceTo]

/-- C8 (amended): an absent field previews as an empty value sequence, not
an error; a present field with positive `max_traces` previews as the
prefix of the first `max_traces` raw values; `max_traces = 0` is treated
as "no limit" and returns every raw value. -/
theorem preview_header_spec :
    (∀ (f : SegyFile) (fld : Field) (m : Int),
      f.attributes fld = none →
      (preview_trace_header f fld m).values = []) ∧
    (∀ (f : SegyFile) (fld : Field) (vs : List ℤ) (m : Int),
      f.attributes fld = some vs → 0 < m →
      (preview_trace_header f fld m).values
        = (vs.map (fun v : ℤ => (v : ℚ))).take m.toNat) ∧
    (∀ (f : SegyFile) (fld : Field) (vs : List ℤ),
      f.attributes fld = some vs →
      (preview_trace_header f fld 0).values
        = vs.map (fun v : ℤ => (v : ℚ))) := by
  refine ⟨?_, ?_, ?_⟩
  · intro f fld m h
    unfold preview_trace_header
    rw [h]
  · intro f fld vs m h hm
    unfold preview_trace_header
    rw [h]
    dsimp only
    rw [if_neg (by omega), pySliceTo]
    rw [if_pos (by omega)]
  · intro f fld vs h
    unfold preview_trace_header
    rw [h]
    dsimp only
    rw [if_pos rfl]
    rfl

/-- Witness for C8 (amended): field 99 is absent from `fileB` and previews
empty; the present X field previews `[5]` under `max_traces = 1` and
`[5, 5]` under `max_traces = 0`. -/
theorem preview_header_spec_witness :
    fileB.attributes 99 = none ∧
    (preview_trace_header fileB 99 5).values = [] ∧
    fileB.attributes 73 = some [5, 5] ∧
    (0 : Int) < 1 ∧
    (preview_trace_header fileB 73 1).values
      = (([5, 5] : List ℤ).map (fun v : ℤ => (v : ℚ))).take (1 : Int).toNat ∧
    (preview_trace_header fileB 73 0).values
      = ([5, 5] : List ℤ).map (fun v : ℤ => (v : ℚ)) :=
  ⟨by norm_num [fileB],
    preview_header_spec.1 fileB 99 5 (by norm_num [fileB]),
    by norm_num [fileB], by norm_num,
    preview_header_spec.2.1 fileB 73 [5, 5] 1 (by norm_num [fileB])
      (by norm_num),
    preview_header_spec.2.2 fileB 73 [5, 5] (by norm_num [fileB])⟩

/-! ### C9: which absent fields make a load fail -/

theorem read_attribute_none_iff (f : SegyFile) (fld : Field) :
    _read_attribute f fld = none ↔ f.attributes fld = none := by
  unfold _read_attribute
  cases f.attributes fld <;> simp

theorem read_and_scale_none_iff (f : SegyFile) (fld : Field)
    (sc : Option (List ℤ)) :
    _read_and_scale_attribute f fld sc = none ↔
      f.attributes fld = none := by
  unfold _read_and_scale_attribute
  cases h : _read_attribute f fld with
  | none =>
    simp [(read_attribute_none_iff f fld).mp h]
  | some values =>
    have : ¬ f.attributes fld = none := by
      intro hc
      rw [← read_attribute_none_iff f fld] at hc
      rw [h] at hc
      exact Option.noConfusion hc
    simp [this]

/-- A copy of `fileB` whose X field (code 73) is absent. -/
def fileE : SegyFile where
  tracecount := 2
  n_samples := 2
  samples := [[1, 2], [3, 4]]
  dt_tools := some 2000
  bin_interval := 2000
  attributes := fun fld =>
    if fld = 77 then some [6, 6]
    else if fld = 71 then some [0, 0]
    else if fld = 21 then some [7, 8]
    else none

/-- C9 counterexample: an absent X field is not handled locally — the
`KeyError` escapes `load_segy_line`, so the load of `fileE` (identical to
`fileB` except that the configured X field is missing) fails. -/
theorem field_absence_fails_load_counterexample :
    fileE.attributes DEFAULT_X_FIELD = none ∧
    load_segy_line fileE cfgDefault "e" = none := by
  constructor
  · norm_num [fileE, DEFAULT_X_FIELD]
  · have hx : _read_and_scale_attribute fileE cfgDefault.x_field
        (cfgDefault.scalar_field.map (_read_scalars fileE)) = none := by
      rw [read_and_scale_none_iff]
      norm_num [fileE, cfgDefault, DEFAULT_X_FIELD]
    unfold load_segy_line
    dsimp only
    rw [hx]

/-- C9 (amended): `load_segy_line` fails exactly when a configured X, Y,
or CDP header field is absent from the file's layout; absence of the
scalar field alone never makes it fail (it is replaced by zeros locally),
and path and structural failures are outside this characterization. -/
theorem load_failure_iff :
    ∀ (f : SegyFile) (cfg : LoadConfig) (nm : String),
      load_segy_line f cfg nm = none ↔
        (f.attributes cfg.x_field = none ∨ f.attributes cfg.y_field = none ∨
          ∃ cf, cfg.cdp_field = some cf ∧ f.attributes cf = none) := by
  intro f cfg nm
  unfold load_segy_line
  dsimp only
  cases hx : _read_and_scale_attribute f cfg.x_field
      (cfg.scalar_field.map (_read_scalars f)) with
  | none =>
    rw [read_and_scale_none_iff] at hx
    simp [hx]
  | some x0 =>
    have hx' : ¬ f.attributes cfg.x_field = none := by
      intro hc
      rw [← read_and_scale_none_iff f cfg.x_field
        (cfg.scalar_field.map (_read_scalars f))] at hc
      rw [hx] at hc
      exact Option.noConfusion hc
    cases hy : _read_and_scale_attribute f cfg.y_field
        (cfg.scalar_field.map (_read_scalars f)) with
    | none =>
      rw [read_and_scale_none_iff] at hy
      simp [hy]
    | some y0 =>
      have hy' : ¬ f.attributes cfg.y_field = none := by
        intro hc
        rw [← read_and_scale_none_iff f cfg.y_field
          (cfg.scalar_field.map (_read_scalars f))] at hc
        rw [hy] at hc
        exact Option.noConfusion hc
      cases hcf : cfg.cdp_field with
      | none => simp [hx', hy']
      | some cf =>
        cases hattr : _read_attribute f cf with
        | none =>
          have h9 : f.attributes cf = none :=
            (read_attribute_none_iff f cf).mp hattr
          simp only [hattr]
          simp [hx', hy', h9]
        | some cdp =>
          have h9 : ¬ f.attributes cf = none := by
            intro hc
            rw [← read_attribute_none_iff f cf] at hc
            rw [hattr] at hc
            exact Option.noConfusion hc
          simp only [hattr]
          simp [hx', hy', h9]

/-! ### C10: absent scalar field behaves like no scalar field -/

theorem zipWith_scaleValue_zero (l : List ℚ) (n : Nat) (h : l.length = n) :
    List.zipWith scaleValue l (List.replicate n 0) = l := by
  induction l generalizing n with
  | nil => simp
  | cons a t ih =>
    cases n with
    | zero => simp at h
    | succ n =>
      rw [List.replicate_succ, List.zipWith_cons_cons,
        ih n (by simpa using h)]
      simp [scaleValue]

/-- C10: a configured scalar field that is absent from the layout is
silently replaced by an all-zero scalar array, so every coordinate passes
through unscaled and the loaded X/Y equal those of a load with no scalar
field configured at all. -/
theorem scalar_absent_passthrough :
    ∀ (f : SegyFile) (cfg : LoadConfig) (sf : Field) (nm : String)
      (line : SegyLine),
      f.WF → cfg.scalar_field = some sf → f.attributes sf = none →
      load_segy_line f cfg nm = some line →
      _read_scalars f sf = List.replicate f.tracecount 0 ∧
      ∃ line', load_segy_line f { cfg with scalar_field := none } nm
          = some line' ∧
        line'.x = line.x ∧ line'.y = line.y := by
  intro f cfg sf nm line hwf hsf habs hload
  have hsc : _read_scalars f sf = List.replicate f.tracecount 0 := by
    unfold _read_scalars
    rw [habs]
  refine ⟨hsc, ?_⟩
  have key : ∀ fld, _read_and_scale_attribute f fld
      (cfg.scalar_field.map (_read_scalars f))
      = _read_and_scale_attribute f fld none := by
    intro fld
    rw [hsf, Option.map_some']
    unfold _read_and_scale_attribute
    cases hattr : _read_attribute f fld with
    | none => simp
    | some values =>
      have hlen : values.length = f.tracecount :=
        read_attribute_length f fld values hwf hattr
      simp only [Option.map_some']
      rw [hsc, zipWith_scaleValue_zero values f.tracecount hlen]
  obtain ⟨x0, y0, cdp, hx, hy, hc, hlx, hly, _, _, _, _, _⟩ :=
    load_segy_line_some_elim hload
  have hx' : _read_and_scale_attribute f
      ({ cfg with scalar_field := none } : LoadConfig).x_field
      (({ cfg with scalar_field := none } : LoadConfig).scalar_field.map
        (_read_scalars f)) = some x0 := by
    show _read_and_scale_attribute f cfg.x_field none = some x0
    rw [← key cfg.x_field]
    exact hx
  have hy' : _read_and_scale_attribute f
      ({ cfg with scalar_field := none } : LoadConfig).y_field
      (({ cfg with scalar_field := none } : LoadConfig).scalar_field.map
        (_read_scalars f)) = some y0 := by
    show _read_and_scale_attribute f cfg.y_field none = some y0
    rw [← key cfg.y_field]
    exact hy
  have hc' : (match ({ cfg with scalar_field := none } : LoadConfig).cdp_field with
              | some cf => _read_attribute f cf
              | none => some ((List.range f.samples.length).map
                  (fun i : ℕ => (i : ℚ)))) = some cdp := hc
  have h' := load_segy_line_some_intro f { cfg with scalar_field := none }
    nm x0 y0 cdp hx' hy' hc'
  refine ⟨_, h', ?_, ?_⟩
  · rw [hlx]
  · rw [hly]

/-- A copy of `fileB` whose scalar field (code 71) is absent. -/
def fileD : SegyFile where
  tracecount := 2
  n_samples := 2
  samples := [[1, 2], [3, 4]]
  dt_tools := some 2000
  bin_interval := 2000
  attributes := fun fld =>
    if fld = 73 then some [5, 5]
    else if fld = 77 then some [6, 6]
    else if fld = 21 then some [7, 8]
    else none

theorem fileD_WF : fileD.WF := by
  refine ⟨rfl, ?_, ?_⟩
  · intro row hrow
    simp only [fileD, List.mem_cons, List.not_mem_nil, or_false] at hrow
    rcases hrow with rfl | rfl <;> rfl
  · intro fld vs h
    simp only [fileD] at h
    split_ifs at h <;>
      first
      | (injection h with h; rw [← h]; rfl)
      | exact Option.noConfusion h

/-- The line `load_segy_line fileD cfgDefault nm` produces (scalar field
absent, so coordinates pass through unscaled). -/
def lineD (nm : String) : SegyLine where
  meta :=
    { name := nm
      n_traces := 2
      n_samples := 2
      dt_us := 2000
      xy_scalar_override := none
      x_offset := 0
      y_offset := 0 }
  samples := [[1, 2], [3, 4]]
  times_ms := [0, 2]
  distance := [0, 0]
  x := [5, 5]
  y := [6, 6]
  cdp := [7, 8]

theorem load_fileD (nm : String) :
    load_segy_line fileD cfgDefault nm = some (lineD nm) := by
  have h := load_segy_line_some_intro fileD cfgDefault nm [5, 5] [6, 6] [7, 8]
    (by norm_num [cfgDefault, DEFAULT_X_FIELD, DEFAULT_SCALAR_FIELD,
      _read_and_scale_attribute, _read_attribute, _read_scalars, fileD,
      scaleValue, List.replicate])
    (by norm_num [cfgDefault, DEFAULT_Y_FIELD, DEFAULT_SCALAR_FIELD,
      _read_and_scale_attribute, _read_attribute, _read_scalars, fileD,
      scaleValue, List.replicate])
    (by norm_num [cfgDefault, DEFAULT_CDP_FIELD, _read_attribute, fileD])
  rw [h]
  have hadjx : applyOffset cfgDefault.x_offset
      (applyOverride cfgDefault.xy_scalar_override [5, 5]) = [5, 5] := by
    norm_num [cfgDefault, applyOffset, applyOverride]
  have hadjy : applyOffset cfgDefault.y_offset
      (applyOverride cfgDefault.xy_scalar_override [6, 6]) = [6, 6] := by
    norm_num [cfgDefault, applyOffset, applyOverride]
  have hdist : _compute_cumulative_distance [5, 5] [6, 6] = [0, 0] := by
    have := cumulative_distance_replicate 2 (5 : ℚ) (6 : ℚ)
    simpa [List.replicate] using this
  rw [hadjx, hadjy, hdist]
  norm_num [lineD, cfgDefault, SegyLine.mk.injEq, SegyLineMeta.mk.injEq,
    fileD, _read_sample_interval_us, List.range_succ]

/-- Witness for C10: loading `fileD` (scalar field absent) under the
default configuration yields a line whose X/Y match a scalar-less load. -/
theorem scalar_absent_passthrough_witness :
    fileD.WF ∧
    cfgDefault.scalar_field = some DEFAULT_SCALAR_FIELD ∧
    fileD.attributes DEFAULT_SCALAR_FIELD = none ∧
    load_segy_line fileD cfgDefault "d" = some (lineD "d") ∧
    (_read_scalars fileD DEFAULT_SCALAR_FIELD
        = List.replicate fileD.tracecount 0 ∧
      ∃ line', load_segy_line fileD
          { cfgDefault with scalar_field := none } "d" = some line' ∧
        line'.x = (lineD "d").x ∧ line'.y = (lineD "d").y) :=
  ⟨fileD_WF, rfl, by norm_num [fileD, DEFAULT_SCALAR_FIELD],
    load_fileD "d",
    scalar_absent_passthrough fileD cfgDefault DEFAULT_SCALAR_FIELD "d"
      (lineD "d") fileD_WF rfl (by norm_num [fileD, DEFAULT_SCALAR_FIELD])
      (load_fileD "d")⟩

/-! ### C4: unique name assignment in `load_multiple_lines` -/

theorem uniqueName_not_mem (taken : List String) (base : String) :
    uniqueName taken base ∉ taken :=
  Nat.find_spec (exists_fresh_candidate taken base)

theorem uniqueName_base (taken : List String) (base : String)
    (h : base ∉ taken) : uniqueName taken base = base := by
  unfold uniqueName
  have h0 : Nat.find (exists_fresh_candidate taken base) = 0 :=
    (Nat.find_eq_zero (exists_fresh_candidate taken base)).mpr h
  rw [h0]
  rfl

theorem uniqueName_is_first_candidate (taken : List String) (base : String) :
    ∃ i, uniqueName taken base = candidateName base i ∧
      candidateName base i ∉ taken ∧
      ∀ j < i, candidateName base j ∈ taken := by
  refine ⟨Nat.find (exists_fresh_candidate taken base), rfl,
    Nat.find_spec (exists_fresh_candidate taken base), ?_⟩
  intro j hj
  have := Nat.find_min (exists_fresh_candidate taken base) hj
  exact not_not.mp this

theorem loadMultipleGo_names (cfg : LoadConfig) :
    ∀ (files : List (SegyFile × String))
      (acc pairs : List (String × SegyLine)),
      loadMultipleGo cfg files acc = some pairs →
      ((acc.map Prod.fst).Nodup → (pairs.map Prod.fst).Nodup) ∧
      ((∀ p ∈ acc, p.2.meta.name = p.1) →
        ∀ p ∈ pairs, p.2.meta.name = p.1) := by
  intro files
  induction files with
  | nil =>
    intro acc pairs h
    unfold loadMultipleGo at h
    injection h with h
    subst h
    exact ⟨id, id⟩
  | cons fp rest ih =>
    obtain ⟨f, stem⟩ := fp
    intro acc pairs h
    unfold loadMultipleGo at h
    cases hl : load_segy_line f cfg stem with
    | none =>
      rw [hl] at h
      exact Option.noConfusion h
    | some line =>
      rw [hl] at h
      dsimp only at h
      constructor
      · intro hnd
        refine (ih _ pairs h).1 ?_
        rw [List.map_append, List.nodup_append]
        refine ⟨hnd, by simp, ?_⟩
        intro a ha hb
        simp only [List.map_cons, List.map_nil, List.mem_singleton] at hb
        subst hb
        exact uniqueName_not_mem _ _ ha
      · intro hnames
        refine (ih _ pairs h).2 ?_
        intro q hq
        rcases List.mem_append.mp hq with h1 | h2
        · exact hnames q h1
        · simp only [List.mem_singleton] at h2
          subst h2
          rfl

theorem uniqueName_aa : uniqueName ["a"] "a" = "a_2" := by
  unfold uniqueName
  have hfind : Nat.find (exists_fresh_candidate ["a"] "a") = 1 := by
    rw [Nat.find_eq_iff]
    constructor
    · show candidateName "a" 1 ∉ (["a"] : List String)
      decide
    · intro m hm
      have hm0 : m = 0 := Nat.lt_one_iff.mp hm
      subst hm0
      show ¬ candidateName "a" 0 ∉ (["a"] : List String)
      decide
  rw [hfind]
  decide

/-- The pairs `load_multiple_lines` produces for stems "a", "a", "b"
(each loading `fileB` under `cfgB`). -/
def pairsAAB : List (String × SegyLine) :=
  [("a", { lineB "a" with meta := { (lineB "a").meta with name := "a" } }),
   ("a_2", { lineB "a" with meta := { (lineB "a").meta with name := "a_2" } }),
   ("b", { lineB "b" with meta := { (lineB "b").meta with name := "b" } })]

theorem load_many_example_eval :
    load_multiple_lines [(fileB, "a"), (fileB, "a"), (fileB, "b")] cfgB
      = some pairsAAB := by
  have h1 : uniqueName [] "a" = "a" := uniqueName_base [] "a" (by simp)
  have h3 : uniqueName ["a", "a_2"] "b" = "b" :=
    uniqueName_base ["a", "a_2"] "b" (by decide)
  unfold load_multiple_lines
  simp only [loadMultipleGo, load_fileB_cfgB, List.map_nil, List.nil_append,
    List.map_cons, List.map_append, List.map_singleton, List.cons_append,
    h1, uniqueName_aa, h3, pairsAAB]

/-- C4: `load_multiple_lines` derives each base name from the stem and, on
collision, tries `base`, `base_2`, `base_3`, … storing the line under the
first free name, which is also written back into the line's metadata; the
result keys are pairwise distinct and each stored line's metadata name
equals its key; stems "a", "a", "b" produce exactly the names
["a", "a_2", "b"]. -/
theorem load_many_unique_names :
    (∀ (files : List (SegyFile × String)) (cfg : LoadConfig)
       (pairs : List (String × SegyLine)),
      load_multiple_lines files cfg = some pairs →
      (pairs.map Prod.fst).Nodup ∧ ∀ p ∈ pairs, p.2.meta.name = p.1) ∧
    (∀ (taken : List String) (base : String),
      uniqueName taken base ∉ taken ∧
      (base ∉ taken → uniqueName taken base = base) ∧
      ∃ i, uniqueName taken base = candidateName base i ∧
        ∀ j < i, candidateName base j ∈ taken) ∧
    (∃ pairs, load_multiple_lines
        [(fileB, "a"), (fileB, "a"), (fileB, "b")] cfgB = some pairs ∧
      pairs.map Prod.fst = ["a", "a_2", "b"]) := by
  refine ⟨?_, ?_, ?_⟩
  · intro files cfg pairs h
    have hgo := loadMultipleGo_names cfg files [] pairs h
    exact ⟨hgo.1 (by simp), hgo.2 (by simp)⟩
  · intro taken base
    refine ⟨uniqueName_not_mem taken base, uniqueName_base taken base, ?_⟩
    obtain ⟨i, hi, _, hmin⟩ := uniqueName_is_first_candidate taken base
    exact ⟨i, hi, hmin⟩
  · exact ⟨pairsAAB, load_many_example_eval, by simp [pairsAAB]⟩

/-- Witness for C4: the concrete three-file batch has pairwise distinct
keys and every stored line's metadata name equals its key. -/
theorem load_many_unique_names_witness :
    load_multiple_lines [(fileB, "a"), (fileB, "a"), (fileB, "b")] cfgB
      = some pairsAAB ∧
    ((pairsAAB.map Prod.fst).Nodup ∧
      ∀ p ∈ pairsAAB, p.2.meta.name = p.1) :=
  ⟨load_many_example_eval,
    load_many_unique_names.1 [(fileB, "a"), (fileB, "a"), (fileB, "b")]
      cfgB pairsAAB load_many_example_eval⟩

end Seis2d
